import Mathlib

set_option autoImplicit false

/-!
Verification of the topology-to-infrastructure synthesis core of the azure-dev
repository, shallowly embedded from `cli/azd/pkg/project/dotnet_importer.go`
and `cli/azd/internal/repository/app_init.go`.  External collaborators
(the dotnet CLI, the apphost template generators, the interactive console,
the environment persistence layer, the filesystem) are modelled as explicit
inputs; the embedded functions mirror the Go control flow and additionally
return a trace recording which collaborators were invoked.
-/

namespace Azd

/-- Errors returned by the Go code, modelled as their message strings. -/
abbrev GoError := String

/-- Association-list lookup with propositional key comparison, used for the
Go maps in this development (manifest cache, host-check cache, config store,
disk contents). -/
def lookupKV {κ α : Type} [DecidableEq κ] : List (κ × α) → κ → Option α
  | [], _ => none
  | (k, v) :: rest, key => if k = key then some v else lookupKV rest key

/-- Modelled from the spec: the apphost package is not among the sources; a
Binding (spec section 3) carries a transport kind, target port, transport
mode, the external flag and the insecure-allowed flag.  Only the external
flag is touched by the code under verification. -/
structure Binding where
  transport : String
  targetPort : Nat
  external : Bool
  insecureAllowed : Bool
deriving DecidableEq, Repr

/-- Modelled from the spec: a Resource of the Topology Model with its set of
bindings (spec section 3). -/
structure Resource where
  bindings : List Binding
deriving DecidableEq, Repr

/-- Modelled from the spec: the Topology Model (apphost.Manifest), resources
keyed by their unique names (spec section 3). -/
structure Manifest where
  resources : List (String × Resource)
deriving DecidableEq, Repr

/-- One entry of the persisted exposed-services array: either a string (a
resource name) or a value of some other dynamic type. -/
inductive CfgEntry where
  | str (s : String)
  | notStr
deriving DecidableEq, Repr

/-- A persisted configuration value: either an array of dynamic entries or a
value of some other dynamic type (the two shapes distinguished by the type
switches in readManifest). -/
inductive CfgVal where
  | arr (entries : List CfgEntry)
  | notArr
deriving DecidableEq, Repr

/-- Modelled from the spec: the durable per-environment key/value
configuration store (spec section 6), addressed by full dotted keys. -/
structure EnvCfg where
  kv : List (String × CfgVal)
deriving DecidableEq, Repr

/-- env.Config.Get for a dotted key. -/
def EnvCfg.get (cfg : EnvCfg) (key : String) : Option CfgVal :=
  lookupKV cfg.kv key

/-- Looks up a resource by name in the manifest (manifest.Resources[name]). -/
def Manifest.findRes (m : Manifest) (s : String) : Option Resource :=
  lookupKV m.resources s

/-- Sets External to true on every binding of a resource; the inner loop
`for _, binding := range manifest.Resources[name].Bindings` of
readManifest (dotnet_importer.go lines 281-283 and 295-297). -/
def Resource.exposeAll (r : Resource) : Resource :=
  ⟨r.bindings.map (fun b => { b with external := true })⟩

/-- Replaces the named resource's bindings by their all-external versions,
leaving every other entry alone. -/
def exposeRes : List (String × Resource) → String → List (String × Resource)
  | [], _ => []
  | (k, r) :: rest, name =>
      if k = name then (k, r.exposeAll) :: exposeRes rest name
      else (k, r) :: exposeRes rest name

/-- Marks every binding of the named resource as external; a name without a
resource in the topology leaves the manifest unchanged (there are no
bindings to iterate). -/
def Manifest.expose (m : Manifest) (name : String) : Manifest :=
  ⟨exposeRes m.resources name⟩

/-- Marks every binding of each named resource as external, in order; the
loop over the selected service names (dotnet_importer.go lines 294-298). -/
def Manifest.exposeList (m : Manifest) (names : List String) : Manifest :=
  names.foldl Manifest.expose m

/-- The configuration key `services.<name>.config.exposedServices` built by
readManifest. -/
def exposedKey (svcName : String) : String :=
  "services." ++ svcName ++ ".config.exposedServices"

/-- The log message for a persisted entry that is not a string. -/
def notStrMsg (svcName : String) (idx : Nat) : String :=
  exposedKey svcName ++ "[" ++ toString idx ++
    "] is not a string, ignoring value."

/-- The loop over the persisted exposedServices entries (dotnet_importer.go
lines 276-285): a string entry exposes the named resource, a non-string
entry is logged by index and skipped.  The natural number is the index of
the first entry of the remaining list. -/
def applyEntries (svcName : String) : Nat → List CfgEntry → Manifest →
    Manifest × List String
  | _, [], m => (m, [])
  | idx, CfgEntry.notStr :: rest, m =>
      let r := applyEntries svcName (idx + 1) rest m
      (r.1, notStrMsg svcName idx :: r.2)
  | idx, CfgEntry.str s :: rest, m =>
      applyEntries svcName (idx + 1) rest (m.expose s)

/-- Applies a persisted configuration value for the exposedServices key
(dotnet_importer.go lines 273-286): a non-array value is logged and ignored
whole; an array is traversed entry by entry with applyEntries.  Returns the
updated manifest and the log messages emitted. -/
def applyCfgValue (svcName : String) (m : Manifest) :
    CfgVal → Manifest × List String
  | CfgVal.notArr =>
      (m, [exposedKey svcName ++ " is not an array, ignoring setting."])
  | CfgVal.arr entries => applyEntries svcName 0 entries m

/-- The DotNetImporter manifest cache (the `cache` field guarded by
`cacheMu`); the host-check cache is modelled separately. -/
structure ImporterState where
  cache : List (String × Manifest)
deriving DecidableEq, Repr

/-- External collaborators consumed by readManifest, as pure oracles:
apphost.ManifestFromAppHost, lazyEnv.GetValue, the ingress selector's
SelectPublicServices, env.Config.Set, lazyEnvManager.GetValue and
envManager.Save. -/
structure ReadDeps where
  discover : String → Except GoError Manifest
  loadEnv : Except GoError EnvCfg
  selectPublic : Except GoError (List String)
  configSet : EnvCfg → String → List String → Except GoError EnvCfg
  envManagerGet : Except GoError Unit
  save : EnvCfg → Except GoError Unit

/-- Trace of one readManifest call: how many times discovery ran, how many
times the interactive selector ran, the Config.Set calls (key and value),
the configurations passed to Save, and the log.Printf messages. -/
structure ReadTrace where
  discoveries : Nat
  prompts : Nat
  setCalls : List (String × List String)
  saveCalls : List EnvCfg
  logs : List String
deriving DecidableEq, Repr

instance {ε α : Type} [DecidableEq ε] [DecidableEq α] :
    DecidableEq (Except ε α) := fun x y =>
  match x, y with
  | Except.ok a, Except.ok b =>
      decidable_of_iff (a = b) ⟨fun h => by rw [h], fun h => by injection h⟩
  | Except.error a, Except.error b =>
      decidable_of_iff (a = b) ⟨fun h => by rw [h], fun h => by injection h⟩
  | Except.ok _, Except.error _ => isFalse (fun h => by injection h)
  | Except.error _, Except.ok _ => isFalse (fun h => by injection h)

/-- Result of one readManifest call: the returned value, the importer state
after the call, and the trace of collaborator invocations. -/
structure ReadResult where
  result : Except GoError Manifest
  state : ImporterState
  trace : ReadTrace
deriving DecidableEq, Repr

/-- DotNetImporter.readManifest (dotnet_importer.go lines 257-321): returns
the cached manifest when one exists for the service path; otherwise runs
discovery, applies or interactively collects and persists the exposed
services, stores the manifest in the cache and returns it.  Errors of
discovery, selection and persistence are returned without caching; a
failure to load the environment is only logged. -/
def readManifest (deps : ReadDeps) (st : ImporterState)
    (svcPath svcName : String) : ReadResult :=
  match lookupKV st.cache svcPath with
  | some m => ⟨Except.ok m, st, ⟨0, 0, [], [], []⟩⟩
  | none =>
    match deps.discover svcPath with
    | Except.error e => ⟨Except.error e, st, ⟨1, 0, [], [], []⟩⟩
    | Except.ok manifest0 =>
      match deps.loadEnv with
      | Except.error e =>
          ⟨Except.ok manifest0, ⟨(svcPath, manifest0) :: st.cache⟩,
            ⟨1, 0, [], [],
              ["unexpected error fetching environment: " ++ e ++
                ", exposed services may not be correct"]⟩⟩
      | Except.ok env =>
        match env.get (exposedKey svcName) with
        | some v =>
            let ml := applyCfgValue svcName manifest0 v
            ⟨Except.ok ml.1, ⟨(svcPath, ml.1) :: st.cache⟩,
              ⟨1, 0, [], [], ml.2⟩⟩
        | none =>
          match deps.selectPublic with
          | Except.error e =>
              ⟨Except.error ("selecting public services: " ++ e), st,
                ⟨1, 1, [], [], []⟩⟩
          | Except.ok exposed =>
            let manifest1 := manifest0.exposeList exposed
            match deps.configSet env (exposedKey svcName) exposed with
            | Except.error e =>
                ⟨Except.error e, st,
                  ⟨1, 1, [(exposedKey svcName, exposed)], [], []⟩⟩
            | Except.ok env2 =>
              match deps.envManagerGet with
              | Except.error e =>
                  ⟨Except.error e, st,
                    ⟨1, 1, [(exposedKey svcName, exposed)], [], []⟩⟩
              | Except.ok _ =>
                match deps.save env2 with
                | Except.error e =>
                    ⟨Except.error e, st,
                      ⟨1, 1, [(exposedKey svcName, exposed)], [env2], []⟩⟩
                | Except.ok _ =>
                    ⟨Except.ok manifest1, ⟨(svcPath, manifest1) :: st.cache⟩,
                      ⟨1, 1, [(exposedKey svcName, exposed)], [env2], []⟩⟩

/-- The DotNetImporter host-check cache (the `hostCheck` field guarded by
`hostCheckMu`): per project path, the memoized boolean and error of the
IsAspireHost probe. -/
structure HostCheckState where
  hostCheck : List (String × (Bool × Option GoError))
deriving DecidableEq, Repr

/-- Result of one CanImport call: the returned boolean and error, the cache
state after the call, and how many times the MSBuild-property probe ran. -/
structure CanImportResult where
  isHost : Bool
  error : Option GoError
  state : HostCheckState
  probes : Nat
deriving DecidableEq, Repr

/-- The comparison `strings.TrimSpace(value) == "true"` from CanImport. -/
def trimIsTrue (v : String) : Bool :=
  v.trim == "true"

/-- DotNetImporter.CanImport (dotnet_importer.go lines 65-89): returns the
memoized probe outcome for the project path if present; otherwise invokes
the dotnet CLI's GetMsBuildProperty probe once, stores the outcome (the
boolean on success, false together with the error on failure) and returns
it. -/
def CanImport (probe : String → Except GoError String)
    (st : HostCheckState) (projectPath : String) : CanImportResult :=
  match lookupKV st.hostCheck projectPath with
  | some r => ⟨r.1, r.2, st, 0⟩
  | none =>
    match probe projectPath with
    | Except.error e =>
        ⟨false, some e,
          ⟨(projectPath, (false, some e)) :: st.hostCheck⟩, 1⟩
    | Except.ok v =>
        ⟨trimIsTrue v, none,
          ⟨(projectPath, (trimIsTrue v, none)) :: st.hostCheck⟩, 1⟩

/-- A rendered file of the virtual file tree: byte contents (modelled as a
string) and file mode. -/
structure VFile where
  contents : String
  mode : Nat
deriving DecidableEq, Repr

/-- A virtual file tree (the in-memory filesystem built by
SynthAllInfrastructure): a map from relative paths, modelled as segment
lists, to file data.  Later writes to the same path win. -/
def VFS : Type := List String → Option VFile

/-- memfs WriteFile: replaces the file at one path. -/
def VFS.write (fs : VFS) (p : List String) (f : VFile) : VFS :=
  fun q => if q = p then some f else fs q

/-- The empty virtual file tree (memfs.New). -/
def VFS.empty : VFS := fun _ => none

/-- External collaborators consumed by SynthAllInfrastructure, as pure
oracles: apphost.BicepTemplate (its files listed in the deterministic
fs.WalkDir order), apphost.ContainerAppManifestTemplateForProject, and the
path computation filepath.Dir(filepath.Rel(p.Path, projectPath)) for each
project path. -/
structure SynthDeps where
  bicepTemplate : Manifest → Except GoError (List (List String × VFile))
  containerAppTemplate : Manifest → String → Except GoError String
  relDir : String → List String

/-- osutil.PermissionFileOwnerOnly (0600). -/
def permissionFileOwnerOnly : Nat := 384

/-- The path `filepath.Join(filepath.Dir(projectRelPath), "manifests",
"containerApp.tmpl.yaml")` at which a project's container app manifest is
written. -/
def manifestRelPath (deps : SynthDeps) (projectPath : String) : List String :=
  deps.relDir projectPath ++ ["manifests", "containerApp.tmpl.yaml"]

/-- The fs.WalkDir copy of the generated infra folder into the in-memory
tree, under the `infra` directory (dotnet_importer.go lines 201-222). -/
def writeInfraFiles (entries : List (List String × VFile)) (fs : VFS) : VFS :=
  entries.foldl (fun acc e => acc.write ("infra" :: e.1) e.2) fs

/-- The loop over apphost.ProjectPaths (dotnet_importer.go lines 227-247):
for each project, render its containerApp.tmpl.yaml and write it under the
project's manifests directory.  The list argument is the iteration order of
the Go map returned by ProjectPaths; Go leaves that order unspecified, so
it is an explicit input here. -/
def writeProjectManifests (deps : SynthDeps) (m : Manifest)
    (order : List (String × String)) (fs : VFS) : Except GoError VFS :=
  match order with
  | [] => Except.ok fs
  | (name, path) :: rest =>
    match deps.containerAppTemplate m name with
    | Except.error e =>
        Except.error ("generating containerApp.tmpl.yaml for project " ++
          name ++ ": " ++ e)
    | Except.ok contents =>
        writeProjectManifests deps m rest
          (fs.write (manifestRelPath deps path)
            ⟨contents, permissionFileOwnerOnly⟩)

/-- DotNetImporter.SynthAllInfrastructure after the manifest has been read
(dotnet_importer.go lines 186-250): renders the infra folder and one
container app manifest per project into a fresh in-memory tree. -/
def SynthAllInfrastructure (deps : SynthDeps) (m : Manifest)
    (order : List (String × String)) : Except GoError VFS :=
  match deps.bicepTemplate m with
  | Except.error e => Except.error ("generating infra/ folder: " ++ e)
  | Except.ok entries =>
      writeProjectManifests deps m order (writeInfraFiles entries VFS.empty)

/-- Boolean path-prefix test: `leads root p` holds when `root` is an
initial segment of `p`, i.e. `p` is `root` itself or lies under the
directory `root`. -/
def leads : List String → List String → Bool
  | [], _ => true
  | _ :: _, [] => false
  | a :: as, b :: bs => a == b && leads as bs

/-- Strips a root directory off a path: `stripRoot root p = some rel` when
`p = root ++ rel`, and `none` otherwise. -/
def stripRoot : List String → List String → Option (List String)
  | [], p => some p
  | _ :: _, [] => none
  | a :: as, b :: bs => if a = b then stripRoot as bs else none

/-- Replaces or appends the entry for one key in an association list (the
filesystem write primitive of the disk model). -/
def setEntry {α : Type} : List (List String × α) → List String → α →
    List (List String × α)
  | [], p, c => [(p, c)]
  | (q, c') :: rest, p, c =>
      if q = p then (p, c) :: rest else (q, c') :: setEntry rest p c

/-- The real filesystem as the staged merge sees it: file contents by path
and the set of directories, both with paths as segment lists. -/
structure Disk where
  files : List (List String × String)
  dirs : List (List String)
deriving DecidableEq, Repr

/-- os.WriteFile: creates or overwrites one file. -/
def Disk.setFile (d : Disk) (p : List String) (c : String) : Disk :=
  ⟨setEntry d.files p c, d.dirs⟩

/-- Reads one file's contents. -/
def Disk.getFile (d : Disk) (p : List String) : Option String :=
  lookupKV d.files p

/-- os.MkdirAll: records a directory (parents are irrelevant to the claims
and not tracked). -/
def Disk.mkdirAll (d : Disk) (p : List String) : Disk :=
  ⟨d.files, if p ∈ d.dirs then d.dirs else p :: d.dirs⟩

/-- os.RemoveAll: removes the directory and everything under it. -/
def Disk.removeAll (d : Disk) (root : List String) : Disk :=
  ⟨d.files.filter (fun e => !leads root e.1),
    d.dirs.filter (fun q => !leads root q)⟩

/-- True when the disk holds no file and no directory at or under `root`
(the state the staging directory must be left in). -/
def Disk.cleanOf (d : Disk) (root : List String) : Bool :=
  d.files.all (fun e => !leads root e.1) && d.dirs.all (fun q => !leads root q)

/-- Outcome of a Go call or of a whole operation: a normal return, an error
return, or an unwinding panic. -/
inductive Outcome (α : Type) where
  | ok (a : α)
  | err (e : GoError)
  | panicked
deriving DecidableEq, Repr

/-- The render loop of the app-host branch of InitFromApp (app_init.go
lines 184-192): every generated file is written below the staging
directory, with its parent directory created first. -/
def renderStaging (staging : List String) :
    List (List String × String) → Disk → Disk
  | [], d => d
  | rc :: rest, d =>
      renderStaging staging rest
        ((d.mkdirAll (staging ++ rc.1.dropLast)).setFile
          (staging ++ rc.1) rc.2)

/-- The files currently on disk under the staging root, listed as
(path relative to the root, contents); what copy.Copy enumerates. -/
def stagingEntries (d : Disk) (root : List String) :
    List (List String × String) :=
  d.files.filterMap (fun e =>
    match stripRoot root e.1 with
    | some rel => some (rel, e.2)
    | none => none)

/-- The skip decision of copy.Copy's options.Skip callback: a path is
skipped when the prompt produced a skip set containing it; a nil skip set
skips nothing. -/
def inSkip (skipSet : Option (List (List String))) (p : List String) : Bool :=
  match skipSet with
  | some s => decide (p ∈ s)
  | none => false

/-- Copies one staged file (given relative to the staging root) to the
destination unless its absolute staging path is skipped. -/
def copyStep (staging dest : List String)
    (skipSet : Option (List (List String))) (acc : Disk)
    (rc : List String × String) : Disk :=
  if inSkip skipSet (staging ++ rc.1) then acc
  else acc.setFile (dest ++ rc.1) rc.2

/-- copy.Copy(staging, dest, options) (app_init.go lines 199-209): copies
every file under the staging root to the destination, except those whose
absolute staging path is in the skip set returned by promptForDuplicates
(a nil skip set skips nothing). -/
def copyTree (staging dest : List String)
    (skipSet : Option (List (List String))) (d : Disk) : Disk :=
  (stagingEntries d staging).foldl (copyStep staging dest skipSet) d

/-- Result of one staged-merge run: its outcome and the final disk. -/
structure MergeResult where
  outcome : Outcome Unit
  disk : Disk
deriving DecidableEq, Repr

/-- Inputs and collaborator outcomes of the app-host staged merge
(app_init.go lines 178-209): the generated artifacts, the destination
root (the project directory), the os.MkdirTemp result, the
promptForDuplicates outcome and the copy.Copy outcome. -/
structure AppHostMergeInput where
  files : List (List String × String)
  destRoot : List String
  mkdirTempResult : Except GoError (List String)
  promptResult : Outcome (Option (List (List String)))
  copyOutcome : Outcome Unit

/-- The app-host staged merge of InitFromApp (app_init.go lines 178-209):
creates a temporary staging directory, registers its removal with defer
(so that removal runs on the normal return, on every error return and when
a collaborator panics), renders all generated files into it, collects the
conflict decisions, and copies the accepted subset to the destination. -/
def appHostStagedMerge (inp : AppHostMergeInput) (d0 : Disk) : MergeResult :=
  match inp.mkdirTempResult with
  | Except.error e => ⟨Outcome.err ("mkdir temp: " ++ e), d0⟩
  | Except.ok staging =>
    let d1 := renderStaging staging inp.files (d0.mkdirAll staging)
    match inp.promptResult with
    | Outcome.panicked => ⟨Outcome.panicked, d1.removeAll staging⟩
    | Outcome.err e => ⟨Outcome.err e, d1.removeAll staging⟩
    | Outcome.ok skipSet =>
      let d2 := copyTree staging inp.destRoot skipSet d1
      match inp.copyOutcome with
      | Outcome.panicked => ⟨Outcome.panicked, d2.removeAll staging⟩
      | Outcome.err e =>
          ⟨Outcome.err ("copying contents from temp staging directory: " ++ e),
            d2.removeAll staging⟩
      | Outcome.ok _ => ⟨Outcome.ok (), d2.removeAll staging⟩

/-- Inputs and collaborator outcomes of the scaffold staged merge
(app_init.go lines 263-309): the os.MkdirTemp result, the scaffold.Load
outcome, the scaffold.ExecInfra outcome (the files it renders into
staging), the destination project root (the infra destination is its
`infra` subdirectory), the promptForDuplicates outcome, the copy.Copy
outcome and the scaffold.Execute outcome for next-steps.md. -/
structure InfraMergeInput where
  mkdirTempResult : Except GoError (List String)
  loadOutcome : Outcome Unit
  execInfraOutcome : Outcome (List (List String × String))
  destRoot : List String
  promptResult : Outcome (Option (List (List String)))
  copyOutcome : Outcome Unit
  nextStepsOutcome : Outcome String

/-- The scaffold staged merge of InitFromApp (app_init.go lines 263-309):
creates a temporary staging directory, registers its removal with defer,
loads the scaffold templates, renders the infra files into staging, creates
the destination infra directory, collects the conflict decisions, copies
the accepted subset to the infra directory, and finally writes
next-steps.md directly at the project root. -/
def infraStagedMerge (inp : InfraMergeInput) (d0 : Disk) : MergeResult :=
  match inp.mkdirTempResult with
  | Except.error e => ⟨Outcome.err ("mkdir temp: " ++ e), d0⟩
  | Except.ok staging =>
    let dS := d0.mkdirAll staging
    match inp.loadOutcome with
    | Outcome.panicked => ⟨Outcome.panicked, dS.removeAll staging⟩
    | Outcome.err e =>
        ⟨Outcome.err ("loading scaffold templates: " ++ e),
          dS.removeAll staging⟩
    | Outcome.ok _ =>
      match inp.execInfraOutcome with
      | Outcome.panicked => ⟨Outcome.panicked, dS.removeAll staging⟩
      | Outcome.err e => ⟨Outcome.err e, dS.removeAll staging⟩
      | Outcome.ok rendered =>
        let d1 := (renderStaging staging rendered dS).mkdirAll
          (inp.destRoot ++ ["infra"])
        match inp.promptResult with
        | Outcome.panicked => ⟨Outcome.panicked, d1.removeAll staging⟩
        | Outcome.err e => ⟨Outcome.err e, d1.removeAll staging⟩
        | Outcome.ok skipSet =>
          let d2 := copyTree staging (inp.destRoot ++ ["infra"]) skipSet d1
          match inp.copyOutcome with
          | Outcome.panicked => ⟨Outcome.panicked, d2.removeAll staging⟩
          | Outcome.err e =>
              ⟨Outcome.err
                ("copying contents from temp staging directory: " ++ e),
                d2.removeAll staging⟩
          | Outcome.ok _ =>
            match inp.nextStepsOutcome with
            | Outcome.panicked => ⟨Outcome.panicked, d2.removeAll staging⟩
            | Outcome.err e => ⟨Outcome.err e, d2.removeAll staging⟩
            | Outcome.ok contents =>
                ⟨Outcome.ok (),
                  (d2.setFile (inp.destRoot ++ ["next-steps.md"]) contents
                    ).removeAll staging⟩

/-- DotNetImporter.SynthAllInfrastructure including its manifest read
(dotnet_importer.go lines 186-192): the manifest is read (and cached)
first; a read error aborts synthesis with no file tree produced. -/
def SynthAllWithRead (deps : ReadDeps) (sdeps : SynthDeps)
    (st : ImporterState) (p n : String) (order : List (String × String)) :
    Except GoError VFS × ImporterState :=
  match (readManifest deps st p n).result with
  | Except.error e =>
      (Except.error ("generating apphost manifest: " ++ e),
        (readManifest deps st p n).state)
  | Except.ok m =>
      (SynthAllInfrastructure sdeps m order, (readManifest deps st p n).state)

/-! ### C1: topology cache behavior of readManifest -/

/-- Collaborators for the C1 counterexample: discovery always fails. -/
def c1Deps : ReadDeps where
  discover := fun _ => Except.error "discovery failed"
  loadEnv := Except.error "no env"
  selectPublic := Except.error "no console"
  configSet := fun env _ _ => Except.ok env
  envManagerGet := Except.ok ()
  save := fun _ => Except.ok ()

/-- First readManifest call on an empty cache when discovery fails. -/
def c1First : ReadResult := readManifest c1Deps ⟨[]⟩ "apphost.csproj" "app"

/-- Second readManifest call for the same path, on the state left by the
first call. -/
def c1Second : ReadResult :=
  readManifest c1Deps c1First.state "apphost.csproj" "app"

/-- C1 counterexample: the claim says a discovery error is stored so that a
subsequent call for the same path returns the stored result without
re-invoking discovery.  In fact, after a failed discovery the cache is left
unchanged and the second call invokes discovery again (its trace records
one discovery, not zero). -/
theorem c1_counterexample :
    c1First.result = Except.error "discovery failed" ∧
    c1First.state.cache = [] ∧
    c1First.trace.discoveries = 1 ∧
    c1Second.trace.discoveries = 1 ∧
    c1Second.result = Except.error "discovery failed" :=
  ⟨rfl, rfl, rfl, rfl, rfl⟩

/-- C1 (amended): readManifest returns the cached manifest without invoking
discovery when the path has a cached entry; otherwise it invokes discovery
exactly once; a successfully returned manifest is stored, so the next call
for the same path returns it with no further discovery; a failed discovery
is returned without being stored, leaving the cache unchanged. -/
theorem c1_cache_get (deps : ReadDeps) (st : ImporterState) (p n : String) :
    (∀ m, lookupKV st.cache p = some m →
      readManifest deps st p n = ⟨Except.ok m, st, ⟨0, 0, [], [], []⟩⟩) ∧
    (lookupKV st.cache p = none →
      (readManifest deps st p n).trace.discoveries = 1) ∧
    (∀ e, deps.discover p = Except.error e → lookupKV st.cache p = none →
      readManifest deps st p n = ⟨Except.error e, st, ⟨1, 0, [], [], []⟩⟩) ∧
    (∀ m, (readManifest deps st p n).result = Except.ok m →
      lookupKV (readManifest deps st p n).state.cache p = some m ∧
      readManifest deps (readManifest deps st p n).state p n =
        ⟨Except.ok m, (readManifest deps st p n).state,
          ⟨0, 0, [], [], []⟩⟩) := by
  refine ⟨?_, ?_, ?_, ?_⟩
  · intro m hm
    simp [readManifest, hm]
  · intro h
    rcases hd : deps.discover p with e | m0
    · simp [readManifest, h, hd]
    · rcases hl : deps.loadEnv with e | env
      · simp [readManifest, h, hd, hl]
      · rcases hg : env.get (exposedKey n) with _ | v
        · rcases hs : deps.selectPublic with e | exposed
          · simp [readManifest, h, hd, hl, hg, hs]
          · rcases hc : deps.configSet env (exposedKey n) exposed with e | env2
            · simp [readManifest, h, hd, hl, hg, hs, hc]
            · rcases hm : deps.envManagerGet with e | u
              · simp [readManifest, h, hd, hl, hg, hs, hc, hm]
              · rcases hv : deps.save env2 with e | u2
                · simp [readManifest, h, hd, hl, hg, hs, hc, hm, hv]
                · simp [readManifest, h, hd, hl, hg, hs, hc, hm, hv]
        · simp [readManifest, h, hd, hl, hg]
  · intro e hd h
    simp [readManifest, h, hd]
  · intro m hm
    rcases h : lookupKV st.cache p with _ | m'
    · rcases hd : deps.discover p with e | m0
      · simp [readManifest, h, hd] at hm
      · rcases hl : deps.loadEnv with e | env
        · simp [readManifest, h, hd, hl] at hm
          subst hm
          refine ⟨by simp [readManifest, h, hd, hl, lookupKV], ?_⟩
          simp [readManifest, h, hd, hl]
          simp [readManifest, lookupKV]
        · rcases hg : env.get (exposedKey n) with _ | v
          · rcases hs : deps.selectPublic with e | exposed
            · simp [readManifest, h, hd, hl, hg, hs] at hm
            · rcases hc : deps.configSet env (exposedKey n) exposed with e | env2
              · simp [readManifest, h, hd, hl, hg, hs, hc] at hm
              · rcases hmg : deps.envManagerGet with e | u
                · simp [readManifest, h, hd, hl, hg, hs, hc, hmg] at hm
                · rcases hv : deps.save env2 with e | u2
                  · simp [readManifest, h, hd, hl, hg, hs, hc, hmg, hv] at hm
                  · simp [readManifest, h, hd, hl, hg, hs, hc, hmg, hv] at hm
                    subst hm
                    refine ⟨by simp [readManifest, h, hd, hl, hg, hs, hc,
                      hmg, hv, lookupKV], ?_⟩
                    simp [readManifest, h, hd, hl, hg, hs, hc, hmg, hv]
                    simp [readManifest, lookupKV]
          · simp [readManifest, h, hd, hl, hg] at hm
            subst hm
            refine ⟨by simp [readManifest, h, hd, hl, hg, lookupKV], ?_⟩
            simp [readManifest, h, hd, hl, hg]
            simp [readManifest, lookupKV]
    · simp [readManifest, h] at hm
      subst hm
      refine ⟨by simp [readManifest, h], ?_⟩
      simp [readManifest, h]

/-- Collaborators for the c1_cache_get witness: discovery succeeds, the
environment fails to load (so exposure handling is skipped). -/
def c1wDeps : ReadDeps where
  discover := fun _ => Except.ok ⟨[]⟩
  loadEnv := Except.error "no environment"
  selectPublic := Except.error "no console"
  configSet := fun env _ _ => Except.ok env
  envManagerGet := Except.ok ()
  save := fun _ => Except.ok ()

/-- Witness for c1_cache_get: at concrete inputs a successful read stores
the manifest and the second call returns it from the cache. -/
theorem c1_cache_get_witness :
    (readManifest c1wDeps ⟨[]⟩ "host" "app").result = Except.ok ⟨[]⟩ ∧
    (lookupKV (readManifest c1wDeps ⟨[]⟩ "host" "app").state.cache "host" =
        some ⟨[]⟩ ∧
      readManifest c1wDeps (readManifest c1wDeps ⟨[]⟩ "host" "app").state
          "host" "app" =
        ⟨Except.ok ⟨[]⟩, (readManifest c1wDeps ⟨[]⟩ "host" "app").state,
          ⟨0, 0, [], [], []⟩⟩) :=
  ⟨by decide, (c1_cache_get c1wDeps ⟨[]⟩ "host" "app").2.2.2 ⟨[]⟩ (by decide)⟩

/-! ### C4: persistence failure is fatal and prevents caching -/

/-- C4: when the exposedServices key is absent and the interactive
selection succeeds, a failure of any persistence step — writing the
configuration key, obtaining the environment manager, or saving the
environment — makes readManifest return that error with the cache
unchanged (the manifest is not stored), and the full synthesis entry point
returns an error instead of a file tree. -/
theorem c4_persist_failure_fatal (deps : ReadDeps) (st : ImporterState)
    (p n : String) (m0 : Manifest) (env : EnvCfg) (exposed : List String)
    (h : lookupKV st.cache p = none) (hd : deps.discover p = Except.ok m0)
    (hl : deps.loadEnv = Except.ok env) (hg : env.get (exposedKey n) = none)
    (hs : deps.selectPublic = Except.ok exposed) :
    (∀ e, deps.configSet env (exposedKey n) exposed = Except.error e →
      readManifest deps st p n =
        ⟨Except.error e, st, ⟨1, 1, [(exposedKey n, exposed)], [], []⟩⟩ ∧
      ∀ sdeps order, (SynthAllWithRead deps sdeps st p n order).1 =
        Except.error ("generating apphost manifest: " ++ e)) ∧
    (∀ env2 e, deps.configSet env (exposedKey n) exposed = Except.ok env2 →
      deps.envManagerGet = Except.error e →
      readManifest deps st p n =
        ⟨Except.error e, st, ⟨1, 1, [(exposedKey n, exposed)], [], []⟩⟩ ∧
      ∀ sdeps order, (SynthAllWithRead deps sdeps st p n order).1 =
        Except.error ("generating apphost manifest: " ++ e)) ∧
    (∀ env2 e, deps.configSet env (exposedKey n) exposed = Except.ok env2 →
      deps.envManagerGet = Except.ok () → deps.save env2 = Except.error e →
      readManifest deps st p n =
        ⟨Except.error e, st, ⟨1, 1, [(exposedKey n, exposed)], [env2], []⟩⟩ ∧
      ∀ sdeps order, (SynthAllWithRead deps sdeps st p n order).1 =
        Except.error ("generating apphost manifest: " ++ e)) := by
  refine ⟨?_, ?_, ?_⟩
  · intro e hc
    constructor
    · simp [readManifest, h, hd, hl, hg, hs, hc]
    · intro sdeps order
      simp [SynthAllWithRead, readManifest, h, hd, hl, hg, hs, hc]
  · intro env2 e hc hmg
    constructor
    · simp [readManifest, h, hd, hl, hg, hs, hc, hmg]
    · intro sdeps order
      simp [SynthAllWithRead, readManifest, h, hd, hl, hg, hs, hc, hmg]
  · intro env2 e hc hmg hv
    constructor
    · simp [readManifest, h, hd, hl, hg, hs, hc, hmg, hv]
    · intro sdeps order
      simp [SynthAllWithRead, readManifest, h, hd, hl, hg, hs, hc, hmg, hv]

/-- Collaborators for the c4_persist_failure_fatal witness: the key is
absent, selection succeeds, saving fails. -/
def c4wDeps : ReadDeps where
  discover := fun _ => Except.ok ⟨[]⟩
  loadEnv := Except.ok ⟨[]⟩
  selectPublic := Except.ok ["web"]
  configSet := fun env k v => Except.ok ⟨(k, CfgVal.arr (v.map CfgEntry.str)) :: env.kv⟩
  envManagerGet := Except.ok ()
  save := fun _ => Except.error "save failed"

/-- Witness for c4_persist_failure_fatal: at concrete inputs a save failure
is returned and the cache stays empty. -/
theorem c4_persist_failure_fatal_witness :
    lookupKV (ImporterState.mk []).cache "host" = none ∧
    (readManifest c4wDeps ⟨[]⟩ "host" "app" =
      ⟨Except.error "save failed", ⟨[]⟩,
        ⟨1, 1, [(exposedKey "app", ["web"])],
          [⟨[(exposedKey "app", CfgVal.arr [CfgEntry.str "web"])]⟩], []⟩⟩ ∧
      ∀ sdeps order,
        (SynthAllWithRead c4wDeps sdeps ⟨[]⟩ "host" "app" order).1 =
          Except.error ("generating apphost manifest: " ++ "save failed")) :=
  ⟨by decide,
    (c4_persist_failure_fatal c4wDeps ⟨[]⟩ "host" "app" ⟨[]⟩ ⟨[]⟩ ["web"]
        (by decide) (by decide) (by decide) (by decide) (by decide)).2.2
      ⟨[(exposedKey "app", CfgVal.arr [CfgEntry.str "web"])]⟩ "save failed"
      (by decide) (by decide) (by decide)⟩

/-! ### C6: propagation policy of readManifest -/

/-- A one-resource manifest used by the C6 counterexample. -/
def c6Manifest : Manifest := ⟨[("web", ⟨[⟨"http", 80, false, false⟩]⟩)]⟩

/-- Collaborators for the C6 counterexample: discovery succeeds but the
environment holding the exposure decisions fails to load. -/
def c6Deps : ReadDeps where
  discover := fun _ => Except.ok c6Manifest
  loadEnv := Except.error "environment load failed"
  selectPublic := Except.error "no console"
  configSet := fun env _ _ => Except.ok env
  envManagerGet := Except.ok ()
  save := fun _ => Except.ok ()

/-- C6 counterexample: the claim says that failure to load the environment
holding the exposure decisions propagates as an error.  In fact readManifest
logs a warning, continues, caches the manifest and returns it successfully. -/
theorem c6_counterexample :
    (readManifest c6Deps ⟨[]⟩ "host" "app").result = Except.ok c6Manifest ∧
    (readManifest c6Deps ⟨[]⟩ "host" "app").state.cache =
      [("host", c6Manifest)] ∧
    (readManifest c6Deps ⟨[]⟩ "host" "app").trace.logs =
      ["unexpected error fetching environment: environment load failed, " ++
        "exposed services may not be correct"] :=
  ⟨rfl, rfl, rfl⟩

/-- C6 (amended): every fatal condition in readManifest propagates to the
caller as an error — discovery failure, interactive-selection failure
(wrapped with context), and each persistence failure — with the exception
of the malformed-persisted-entry tolerance and of a failure to load the
environment, which is logged as a warning while the run continues with the
discovered manifest, exposure decisions unapplied. -/
theorem c6_error_propagation (deps : ReadDeps) (st : ImporterState)
    (p n : String) (h : lookupKV st.cache p = none) :
    (∀ m0 e, deps.discover p = Except.ok m0 →
      deps.loadEnv = Except.error e →
      readManifest deps st p n =
        ⟨Except.ok m0, ⟨(p, m0) :: st.cache⟩,
          ⟨1, 0, [], [],
            ["unexpected error fetching environment: " ++ e ++
              ", exposed services may not be correct"]⟩⟩) ∧
    (∀ e, deps.discover p = Except.error e →
      (readManifest deps st p n).result = Except.error e) ∧
    (∀ m0 env e, deps.discover p = Except.ok m0 →
      deps.loadEnv = Except.ok env → env.get (exposedKey n) = none →
      deps.selectPublic = Except.error e →
      (readManifest deps st p n).result =
        Except.error ("selecting public services: " ++ e)) ∧
    (∀ m0 env exposed e, deps.discover p = Except.ok m0 →
      deps.loadEnv = Except.ok env → env.get (exposedKey n) = none →
      deps.selectPublic = Except.ok exposed →
      deps.configSet env (exposedKey n) exposed = Except.error e →
      (readManifest deps st p n).result = Except.error e) ∧
    (∀ m0 env exposed env2 e, deps.discover p = Except.ok m0 →
      deps.loadEnv = Except.ok env → env.get (exposedKey n) = none →
      deps.selectPublic = Except.ok exposed →
      deps.configSet env (exposedKey n) exposed = Except.ok env2 →
      deps.envManagerGet = Except.ok () → deps.save env2 = Except.error e →
      (readManifest deps st p n).result = Except.error e) := by
  refine ⟨?_, ?_, ?_, ?_, ?_⟩
  · intro m0 e hd hl
    simp [readManifest, h, hd, hl]
  · intro e hd
    simp [readManifest, h, hd]
  · intro m0 env e hd hl hg hs
    simp [readManifest, h, hd, hl, hg, hs]
  · intro m0 env exposed e hd hl hg hs hc
    simp [readManifest, h, hd, hl, hg, hs, hc]
  · intro m0 env exposed env2 e hd hl hg hs hc hmg hv
    simp [readManifest, h, hd, hl, hg, hs, hc, hmg, hv]

/-- Collaborators for the c6_error_propagation witness: selection fails. -/
def c6wDeps : ReadDeps where
  discover := fun _ => Except.ok ⟨[]⟩
  loadEnv := Except.ok ⟨[]⟩
  selectPublic := Except.error "cancelled"
  configSet := fun env _ _ => Except.ok env
  envManagerGet := Except.ok ()
  save := fun _ => Except.ok ()

/-- Witness for c6_error_propagation: a selection failure at concrete
inputs propagates wrapped with context. -/
theorem c6_error_propagation_witness :
    lookupKV (ImporterState.mk []).cache "host" = none ∧
    (readManifest c6wDeps ⟨[]⟩ "host" "app").result =
      Except.error ("selecting public services: " ++ "cancelled") :=
  ⟨by decide,
    (c6_error_propagation c6wDeps ⟨[]⟩ "host" "app" (by decide)).2.2.1
      ⟨[]⟩ ⟨[]⟩ "cancelled" (by decide) (by decide) (by decide) (by decide)⟩

/-! ### C7: the host-check probe cache of CanImport -/

/-- C7: CanImport memoizes the probe per project path: a cached outcome is
returned unchanged with no probe; on a miss the probe runs exactly once,
its outcome — including an error — is stored, and the next call for the
same path returns the stored pair without probing. -/
theorem c7_host_probe_cache (probe : String → Except GoError String)
    (st : HostCheckState) (p : String) :
    (∀ r, lookupKV st.hostCheck p = some r →
      CanImport probe st p = ⟨r.1, r.2, st, 0⟩) ∧
    (lookupKV st.hostCheck p = none →
      (CanImport probe st p).probes = 1 ∧
      lookupKV (CanImport probe st p).state.hostCheck p =
        some ((CanImport probe st p).isHost, (CanImport probe st p).error) ∧
      CanImport probe (CanImport probe st p).state p =
        ⟨(CanImport probe st p).isHost, (CanImport probe st p).error,
          (CanImport probe st p).state, 0⟩) ∧
    (∀ e, lookupKV st.hostCheck p = none → probe p = Except.error e →
      (CanImport probe st p).isHost = false ∧
      (CanImport probe st p).error = some e) ∧
    (∀ v, lookupKV st.hostCheck p = none → probe p = Except.ok v →
      (CanImport probe st p).isHost = trimIsTrue v ∧
      (CanImport probe st p).error = none) := by
  refine ⟨?_, ?_, ?_, ?_⟩
  · intro r hr
    simp [CanImport, hr]
  · intro h
    rcases hp : probe p with e | v
    · simp [CanImport, h, hp, lookupKV]
    · simp [CanImport, h, hp, lookupKV]
  · intro e h hp
    simp [CanImport, h, hp]
  · intro v h hp
    simp [CanImport, h, hp]

/-- The probe for the c7_host_probe_cache witness: always fails. -/
def c7wProbe : String → Except GoError String :=
  fun _ => Except.error "msbuild failed"

/-- Witness for c7_host_probe_cache: at a concrete path the failed probe
outcome is stored and returned again without re-probing. -/
theorem c7_host_probe_cache_witness :
    lookupKV (HostCheckState.mk []).hostCheck "proj" = none ∧
    ((CanImport c7wProbe ⟨[]⟩ "proj").probes = 1 ∧
      lookupKV (CanImport c7wProbe ⟨[]⟩ "proj").state.hostCheck "proj" =
        some ((CanImport c7wProbe ⟨[]⟩ "proj").isHost,
          (CanImport c7wProbe ⟨[]⟩ "proj").error) ∧
      CanImport c7wProbe (CanImport c7wProbe ⟨[]⟩ "proj").state "proj" =
        ⟨(CanImport c7wProbe ⟨[]⟩ "proj").isHost,
          (CanImport c7wProbe ⟨[]⟩ "proj").error,
          (CanImport c7wProbe ⟨[]⟩ "proj").state, 0⟩) :=
  ⟨by decide, (c7_host_probe_cache c7wProbe ⟨[]⟩ "proj").2.1 (by decide)⟩

/-! ### Lemmas about exposure application -/

lemma exposeAll_exposeAll (r : Resource) :
    r.exposeAll.exposeAll = r.exposeAll := by
  cases r with
  | mk bs =>
    simp [Resource.exposeAll, List.map_map, Function.comp]

lemma mem_exposeAll_external (r : Resource) :
    ∀ b ∈ r.exposeAll.bindings, b.external = true := by
  intro b hb
  simp [Resource.exposeAll] at hb
  obtain ⟨a, _, rfl⟩ := hb
  rfl

lemma lookupKV_exposeRes (l : List (String × Resource)) (name s : String) :
    lookupKV (exposeRes l name) s =
      if s = name then (lookupKV l s).map Resource.exposeAll
      else lookupKV l s := by
  induction l with
  | nil => simp [lookupKV, exposeRes]
  | cons hd tl ih =>
    obtain ⟨k, r⟩ := hd
    by_cases hk : k = name
    · subst hk
      rw [exposeRes, if_pos rfl]
      by_cases hs : k = s
      · subst hs
        simp [lookupKV]
      · simp [lookupKV, hs, Ne.symm hs, ih]
    · rw [exposeRes, if_neg hk]
      by_cases hs : k = s
      · subst hs
        simp [lookupKV, hk]
      · simp [lookupKV, hs, ih]

lemma findRes_expose (m : Manifest) (name s : String) :
    (m.expose name).findRes s =
      if s = name then (m.findRes s).map Resource.exposeAll
      else m.findRes s := by
  cases m with
  | mk l =>
    simpa [Manifest.expose, Manifest.findRes] using lookupKV_exposeRes l name s

lemma findRes_exposeList (m : Manifest) (names : List String) (s : String) :
    (m.exposeList names).findRes s =
      if s ∈ names then (m.findRes s).map Resource.exposeAll
      else m.findRes s := by
  induction names generalizing m with
  | nil => simp [Manifest.exposeList]
  | cons a rest ih =>
    simp only [Manifest.exposeList, List.foldl_cons]
    have step : List.foldl Manifest.expose (m.expose a) rest =
        (m.expose a).exposeList rest := rfl
    rw [step, ih (m.expose a), findRes_expose]
    by_cases ha : s = a
    · subst ha
      by_cases hr : s ∈ rest
      · simp only [hr, if_true, List.mem_cons, true_or, if_pos rfl]
        cases m.findRes s <;> simp [exposeAll_exposeAll]
      · simp [hr, List.mem_cons]
    · by_cases hr : s ∈ rest
      · simp [ha, hr, List.mem_cons]
      · simp [ha, hr, List.mem_cons]

lemma exposeRes_id (l : List (String × Resource)) (name : String)
    (h : lookupKV l name = none) : exposeRes l name = l := by
  induction l with
  | nil => rfl
  | cons hd tl ih =>
    obtain ⟨k, r⟩ := hd
    by_cases hk : k = name
    · subst hk
      simp [lookupKV] at h
    · simp [lookupKV, hk] at h
      rw [exposeRes, if_neg hk, ih h]

lemma expose_of_findRes_none (m : Manifest) (name : String)
    (h : m.findRes name = none) : m.expose name = m := by
  cases m with
  | mk l =>
    simp only [Manifest.findRes] at h
    simp [Manifest.expose, exposeRes_id l name h]

lemma exposeList_missing (m : Manifest) (names : List String)
    (h : ∀ s ∈ names, m.findRes s = none) : m.exposeList names = m := by
  induction names generalizing m with
  | nil => rfl
  | cons a rest ih =>
    simp only [Manifest.exposeList, List.foldl_cons]
    rw [show Manifest.expose m a = m from
      expose_of_findRes_none m a (h a (by simp))]
    exact ih m (fun s hs => h s (by simp [hs]))

/-- The resource names of the well-formed (string) entries of a persisted
exposedServices array, in order. -/
def strNames : List CfgEntry → List String
  | [] => []
  | CfgEntry.str s :: rest => s :: strNames rest
  | CfgEntry.notStr :: rest => strNames rest

/-- The log messages produced by the entry loop, starting at a given
index. -/
def entryLogsFrom (svcName : String) : Nat → List CfgEntry → List String
  | _, [] => []
  | idx, CfgEntry.notStr :: rest =>
      notStrMsg svcName idx :: entryLogsFrom svcName (idx + 1) rest
  | idx, CfgEntry.str _ :: rest => entryLogsFrom svcName (idx + 1) rest

lemma applyEntries_fst (n : String) (idx : Nat) (entries : List CfgEntry)
    (m : Manifest) :
    (applyEntries n idx entries m).1 = m.exposeList (strNames entries) := by
  induction entries generalizing idx m with
  | nil => rfl
  | cons e rest ih =>
    cases e with
    | str s =>
        simp only [applyEntries, strNames, Manifest.exposeList,
          List.foldl_cons]
        exact ih (idx + 1) (m.expose s)
    | notStr =>
        simp only [applyEntries, strNames]
        exact ih (idx + 1) m

lemma applyEntries_snd (n : String) (idx : Nat) (entries : List CfgEntry)
    (m : Manifest) :
    (applyEntries n idx entries m).2 = entryLogsFrom n idx entries := by
  induction entries generalizing idx m with
  | nil => rfl
  | cons e rest ih =>
    cases e <;> simp [applyEntries, entryLogsFrom, ih]

/-! ### C2: persisted exposure decisions applied without interaction -/

/-- C2: when the exposedServices key holds a persisted array, readManifest
applies it with no interactive prompt, marking every binding of each named
resource external; when the key is absent, the user is prompted once and
the selected names are written back to the same key and saved. -/
theorem c2_persisted_exposure (deps : ReadDeps) (st : ImporterState)
    (p n : String) (m0 : Manifest) (env : EnvCfg)
    (h : lookupKV st.cache p = none) (hd : deps.discover p = Except.ok m0)
    (hl : deps.loadEnv = Except.ok env) :
    (∀ entries, env.get (exposedKey n) = some (CfgVal.arr entries) →
      (readManifest deps st p n).trace.prompts = 0 ∧
      (readManifest deps st p n).result =
        Except.ok (m0.exposeList (strNames entries)) ∧
      (∀ s r, s ∈ strNames entries →
        (m0.exposeList (strNames entries)).findRes s = some r →
        ∀ b ∈ r.bindings, b.external = true)) ∧
    (∀ exposed env2, env.get (exposedKey n) = none →
      deps.selectPublic = Except.ok exposed →
      deps.configSet env (exposedKey n) exposed = Except.ok env2 →
      deps.envManagerGet = Except.ok () → deps.save env2 = Except.ok () →
      (readManifest deps st p n).trace.prompts = 1 ∧
      (readManifest deps st p n).trace.setCalls = [(exposedKey n, exposed)] ∧
      (readManifest deps st p n).trace.saveCalls = [env2] ∧
      (readManifest deps st p n).result =
        Except.ok (m0.exposeList exposed)) := by
  constructor
  · intro entries hg
    refine ⟨?_, ?_, ?_⟩
    · simp [readManifest, h, hd, hl, hg]
    · simp [readManifest, h, hd, hl, hg, applyCfgValue, applyEntries_fst]
    · intro s r hs hfind b hb
      rw [findRes_exposeList] at hfind
      rw [if_pos hs] at hfind
      rcases hm : m0.findRes s with _ | r0
      · rw [hm] at hfind
        simp at hfind
      · rw [hm] at hfind
        simp at hfind
        subst hfind
        exact mem_exposeAll_external r0 b hb
  · intro exposed env2 hg hs hc hmg hv
    refine ⟨?_, ?_, ?_, ?_⟩ <;>
      simp [readManifest, h, hd, hl, hg, hs, hc, hmg, hv]

/-- Collaborators for the c2_persisted_exposure witness: the key holds
["web"]. -/
def c2wDeps : ReadDeps where
  discover := fun _ =>
    Except.ok ⟨[("web", ⟨[⟨"http", 80, false, false⟩]⟩)]⟩
  loadEnv :=
    Except.ok ⟨[(exposedKey "app", CfgVal.arr [CfgEntry.str "web"])]⟩
  selectPublic := Except.error "prompt must not run"
  configSet := fun env _ _ => Except.ok env
  envManagerGet := Except.ok ()
  save := fun _ => Except.ok ()

/-- Witness for c2_persisted_exposure: at concrete inputs the persisted
decision ["web"] is applied with no prompt and web's binding comes out
external. -/
theorem c2_persisted_exposure_witness :
    c2wDeps.loadEnv.map (fun env => env.get (exposedKey "app")) =
      Except.ok (some (CfgVal.arr [CfgEntry.str "web"])) ∧
    ((readManifest c2wDeps ⟨[]⟩ "host" "app").trace.prompts = 0 ∧
      (readManifest c2wDeps ⟨[]⟩ "host" "app").result =
        Except.ok
          ((Manifest.mk [("web", ⟨[⟨"http", 80, false, false⟩]⟩)]).exposeList
            (strNames [CfgEntry.str "web"])) ∧
      (∀ s r, s ∈ strNames [CfgEntry.str "web"] →
        ((Manifest.mk [("web", ⟨[⟨"http", 80, false, false⟩]⟩)]).exposeList
            (strNames [CfgEntry.str "web"])).findRes s = some r →
        ∀ b ∈ r.bindings, b.external = true)) :=
  ⟨by decide,
    (c2_persisted_exposure c2wDeps ⟨[]⟩ "host" "app"
        ⟨[("web", ⟨[⟨"http", 80, false, false⟩]⟩)]⟩
        ⟨[(exposedKey "app", CfgVal.arr [CfgEntry.str "web"])]⟩
        (by decide) (by decide) (by decide)).1
      [CfgEntry.str "web"] (by decide)⟩

/-! ### C3: tolerance for malformed persisted entries -/

/-- Collaborators for the C3 counterexample: the persisted array holds one
malformed (non-string) entry. -/
def c3Deps : ReadDeps where
  discover := fun _ => Except.ok ⟨[]⟩
  loadEnv := Except.ok ⟨[(exposedKey "app", CfgVal.arr [CfgEntry.notStr])]⟩
  selectPublic := Except.error "prompt must not run"
  configSet := fun env _ _ => Except.ok env
  envManagerGet := Except.ok ()
  save := fun _ => Except.ok ()

/-- C3 counterexample: the claim says the selector falls through to
interactive selection for the resources whose decisions could not be read.
In fact, with a persisted array holding a malformed entry, the entry is
logged and skipped and no interactive selection runs at all (the prompt
count is zero); the prompt is reached only when the key is absent. -/
theorem c3_counterexample :
    (readManifest c3Deps ⟨[]⟩ "host" "app").trace.prompts = 0 ∧
    (readManifest c3Deps ⟨[]⟩ "host" "app").trace.logs =
      ["services.app.config.exposedServices[0] " ++
        "is not a string, ignoring value."] ∧
    (readManifest c3Deps ⟨[]⟩ "host" "app").result = Except.ok ⟨[]⟩ :=
  ⟨rfl, rfl, rfl⟩

/-- C3 (amended): malformed persisted data is logged and ignored without
failing the invocation — a non-array value is logged and ignored whole, a
non-string entry is logged by index and skipped, and a string entry naming
a resource absent from the topology leaves the topology unchanged — and no
interactive selection occurs while the key is present; the prompt is
issued only when the key is absent. -/
theorem c3_malformed_tolerated (deps : ReadDeps) (st : ImporterState)
    (p n : String) (m0 : Manifest) (env : EnvCfg) (v : CfgVal)
    (h : lookupKV st.cache p = none) (hd : deps.discover p = Except.ok m0)
    (hl : deps.loadEnv = Except.ok env)
    (hg : env.get (exposedKey n) = some v) :
    (readManifest deps st p n).trace.prompts = 0 ∧
    (readManifest deps st p n).result =
      Except.ok (applyCfgValue n m0 v).1 ∧
    (v = CfgVal.notArr →
      (readManifest deps st p n).trace.logs =
        [exposedKey n ++ " is not an array, ignoring setting."] ∧
      (applyCfgValue n m0 v).1 = m0) ∧
    (∀ entries, v = CfgVal.arr entries →
      (readManifest deps st p n).trace.logs = entryLogsFrom n 0 entries ∧
      (applyCfgValue n m0 v).1 = m0.exposeList (strNames entries)) ∧
    (∀ names, (∀ s ∈ names, m0.findRes s = none) →
      m0.exposeList names = m0) := by
  refine ⟨?_, ?_, ?_, ?_, ?_⟩
  · simp [readManifest, h, hd, hl, hg]
  · simp [readManifest, h, hd, hl, hg]
  · intro hv
    subst hv
    constructor
    · simp [readManifest, h, hd, hl, hg, applyCfgValue]
    · simp [applyCfgValue]
  · intro entries hv
    subst hv
    constructor
    · simp [readManifest, h, hd, hl, hg, applyCfgValue, applyEntries_snd]
    · simp [applyCfgValue, applyEntries_fst]
  · exact exposeList_missing m0

/-- Collaborators for the c3_malformed_tolerated witness: the persisted
array holds a name of a missing resource and a non-string entry. -/
def c3wDeps : ReadDeps where
  discover := fun _ => Except.ok ⟨[]⟩
  loadEnv := Except.ok
    ⟨[(exposedKey "app",
        CfgVal.arr [CfgEntry.str "ghost", CfgEntry.notStr])]⟩
  selectPublic := Except.error "prompt must not run"
  configSet := fun env _ _ => Except.ok env
  envManagerGet := Except.ok ()
  save := fun _ => Except.ok ()

/-- Witness for c3_malformed_tolerated: at concrete inputs the malformed
and dangling entries are tolerated, the run succeeds and no prompt runs. -/
theorem c3_malformed_tolerated_witness :
    lookupKV (ImporterState.mk []).cache "host" = none ∧
    ((readManifest c3wDeps ⟨[]⟩ "host" "app").trace.prompts = 0 ∧
      (readManifest c3wDeps ⟨[]⟩ "host" "app").result =
        Except.ok
          (applyCfgValue "app" ⟨[]⟩
            (CfgVal.arr [CfgEntry.str "ghost", CfgEntry.notStr])).1) :=
  ⟨by decide,
    (c3_malformed_tolerated c3wDeps ⟨[]⟩ "host" "app" ⟨[]⟩
        ⟨[(exposedKey "app",
            CfgVal.arr [CfgEntry.str "ghost", CfgEntry.notStr])]⟩
        (CfgVal.arr [CfgEntry.str "ghost", CfgEntry.notStr])
        (by decide) (by decide) (by decide) (by decide)).1,
    (c3_malformed_tolerated c3wDeps ⟨[]⟩ "host" "app" ⟨[]⟩
        ⟨[(exposedKey "app",
            CfgVal.arr [CfgEntry.str "ghost", CfgEntry.notStr])]⟩
        (CfgVal.arr [CfgEntry.str "ghost", CfgEntry.notStr])
        (by decide) (by decide) (by decide) (by decide)).2.1⟩

lemma exposeAll_get? (r : Resource) (i : Nat) (b : Binding)
    (hb : r.bindings.get? i = some b) :
    r.exposeAll.bindings.get? i = some { b with external := true } := by
  cases r with
  | mk bs =>
    simp only [Resource.exposeAll] at *
    rw [List.get?_map, hb]
    rfl

/-! ### C10: exposure application only widens, uniformly -/

/-- C10: applying an exposure decision set marks every binding of each
named resource external; resources not named keep their entry unchanged;
the external flag is never unset (a binding already external stays
external); and applying a persisted array is exactly exposing its
well-formed names. -/
theorem c10_exposure_widening (m : Manifest) (names : List String)
    (n : String) :
    (∀ s, s ∈ names → ∀ r, (m.exposeList names).findRes s = some r →
      ∀ b ∈ r.bindings, b.external = true) ∧
    (∀ s, s ∉ names → (m.exposeList names).findRes s = m.findRes s) ∧
    (∀ s r r', m.findRes s = some r →
      (m.exposeList names).findRes s = some r' →
      (r' = r ∨ r' = r.exposeAll) ∧
      (∀ i, (r.bindings.get? i).map Binding.external = some true →
        (r'.bindings.get? i).map Binding.external = some true)) ∧
    (∀ entries, (applyCfgValue n m (CfgVal.arr entries)).1 =
      m.exposeList (strNames entries)) := by
  refine ⟨?_, ?_, ?_, ?_⟩
  · intro s hs r hfind b hb
    rw [findRes_exposeList, if_pos hs] at hfind
    rcases hm : m.findRes s with _ | r0
    · rw [hm] at hfind
      simp at hfind
    · rw [hm] at hfind
      simp at hfind
      subst hfind
      exact mem_exposeAll_external r0 b hb
  · intro s hs
    rw [findRes_exposeList, if_neg hs]
  · intro s r r' hr hr'
    rw [findRes_exposeList] at hr'
    by_cases hs : s ∈ names
    · rw [if_pos hs, hr] at hr'
      simp at hr'
      subst hr'
      refine ⟨Or.inr rfl, ?_⟩
      intro i hi
      rcases hb : r.bindings.get? i with _ | b
      · rw [hb] at hi
        simp at hi
      · rw [hb] at hi
        simp at hi
        rw [exposeAll_get? r i b hb]
        rfl
    · rw [if_neg hs, hr] at hr'
      simp at hr'
      subst hr'
      exact ⟨Or.inl rfl, fun i hi => hi⟩
  · intro entries
    exact applyEntries_fst n 0 entries m

/-- Witness for c10_exposure_widening: concrete two-resource topology with
the decision set ["web"]. -/
theorem c10_exposure_widening_witness :
    ("web" : String) ∈ ["web"] ∧
    ((Manifest.mk
        [("web", ⟨[⟨"http", 80, false, false⟩]⟩),
          ("api", ⟨[⟨"tcp", 5000, false, true⟩]⟩)]).exposeList
        ["web"]).findRes "web" =
      some ⟨[⟨"http", 80, true, false⟩]⟩ ∧
    ∀ b ∈ (Resource.mk [⟨"http", 80, true, false⟩]).bindings,
      b.external = true :=
  ⟨by decide, by decide,
    (c10_exposure_widening
        ⟨[("web", ⟨[⟨"http", 80, false, false⟩]⟩),
          ("api", ⟨[⟨"tcp", 5000, false, true⟩]⟩)]⟩ ["web"] "app").1
      "web" (by decide) ⟨[⟨"http", 80, true, false⟩]⟩ (by decide)⟩

/-! ### C5: determinism of SynthAllInfrastructure -/

lemma VFS.write_comm (fs : VFS) {p q : List String} (h : p ≠ q)
    (f g : VFile) :
    (fs.write p f).write q g = (fs.write q g).write p f := by
  funext r
  simp only [VFS.write]
  by_cases hq : r = q <;> by_cases hp : r = p
  · exact absurd (hp.symm.trans hq) h
  · subst hq
    simp [Ne.symm h]
  · subst hp
    simp [h]
  · simp [hq, hp]

/-- A sequence of writes, keyed and valued by functions of the elements of
a list (the shape of the per-project write loop). -/
def writeSeq {α : Type} (key : α → List String) (val : α → VFile)
    (l : List α) (fs : VFS) : VFS :=
  l.foldl (fun acc a => acc.write (key a) (val a)) fs

lemma writeSeq_perm {α : Type} (key : α → List String) (val : α → VFile)
    {l₁ l₂ : List α} (hp : l₁.Perm l₂) :
    (l₁.map key).Nodup → ∀ fs : VFS,
      writeSeq key val l₁ fs = writeSeq key val l₂ fs := by
  induction hp with
  | nil =>
    intro _ fs
    rfl
  | cons x htl ih =>
    intro hn fs
    simp only [List.map_cons, List.nodup_cons] at hn
    simp only [writeSeq, List.foldl_cons]
    exact ih hn.2 _
  | swap x y l =>
    intro hn fs
    simp only [List.map_cons, List.nodup_cons, List.mem_cons] at hn
    simp only [writeSeq, List.foldl_cons]
    rw [VFS.write_comm fs (fun hh => hn.1 (Or.inl hh)) (val y) (val x)]
  | trans h₁ h₂ ih₁ ih₂ =>
    intro hn fs
    rw [ih₁ hn fs, ih₂ ((h₁.map key).nodup_iff.mp hn) fs]

/-- The rendered containerApp template of a project, defined when the
template collaborator succeeds. -/
def templOut (deps : SynthDeps) (m : Manifest) (name : String) : String :=
  match deps.containerAppTemplate m name with
  | Except.ok s => s
  | Except.error _ => ""

lemma writeProjectManifests_eq (deps : SynthDeps) (m : Manifest)
    (order : List (String × String)) (fs : VFS)
    (hok : ∀ nv ∈ order,
      ∃ s, deps.containerAppTemplate m nv.1 = Except.ok s) :
    writeProjectManifests deps m order fs =
      Except.ok (writeSeq (fun nv => manifestRelPath deps nv.2)
        (fun nv => ⟨templOut deps m nv.1, permissionFileOwnerOnly⟩)
        order fs) := by
  induction order generalizing fs with
  | nil => rfl
  | cons nv rest ih =>
    obtain ⟨name, path⟩ := nv
    obtain ⟨s, hs⟩ := hok (name, path) (by simp)
    have ht : templOut deps m name = s := by simp [templOut, hs]
    simp only [writeProjectManifests, hs]
    rw [ih _ (fun nv hnv => hok nv (by simp [hnv]))]
    simp only [writeSeq, List.foldl_cons]
    rw [ht]

/-- C5 (amended): provided the per-project manifest output paths are
pairwise distinct and every project's template renders, the synthesized
tree does not depend on the iteration order of the project map: any two
runs over the same manifest — Go map iteration order being unspecified —
produce the same file tree. -/
theorem c5_synth_deterministic (deps : SynthDeps) (m : Manifest)
    {o₁ o₂ : List (String × String)} (hperm : o₁.Perm o₂)
    (hn : (o₁.map (fun nv => manifestRelPath deps nv.2)).Nodup)
    (hok : ∀ nv ∈ o₁,
      ∃ s, deps.containerAppTemplate m nv.1 = Except.ok s) :
    SynthAllInfrastructure deps m o₁ = SynthAllInfrastructure deps m o₂ := by
  unfold SynthAllInfrastructure
  cases hb : deps.bicepTemplate m with
  | error e => rfl
  | ok entries =>
    dsimp only
    rw [writeProjectManifests_eq deps m o₁ _ hok,
      writeProjectManifests_eq deps m o₂ _
        (fun nv hnv => hok nv (hperm.mem_iff.mpr hnv))]
    exact congrArg Except.ok
      (writeSeq_perm (fun nv => manifestRelPath deps nv.2)
        (fun nv => ⟨templOut deps m nv.1, permissionFileOwnerOnly⟩)
        hperm hn _)

/-- Collaborators for the C5 counterexample: two project resources share
one project path (two logical services running the same project), so both
containerApp manifests render to the same relative path while their
contents differ by project name. -/
def c5Deps : SynthDeps where
  bicepTemplate := fun _ => Except.ok []
  containerAppTemplate := fun _ name => Except.ok name
  relDir := fun _ => []

/-- One Go-map iteration order of the project paths. -/
def c5OrderA : List (String × String) := [("api1", "proj"), ("api2", "proj")]

/-- The other Go-map iteration order of the same project paths. -/
def c5OrderB : List (String × String) := [("api2", "proj"), ("api1", "proj")]

/-- The file the two runs disagree on. -/
def c5Probe (order : List (String × String)) : Option VFile :=
  match SynthAllInfrastructure c5Deps ⟨[]⟩ order with
  | Except.ok fs => fs ["manifests", "containerApp.tmpl.yaml"]
  | Except.error _ => none

/-- C5 counterexample: the claim says two synthesizer runs on the same
topology and decisions yield byte-identical trees.  The per-project loop
iterates a Go map, whose iteration order is unspecified; with two project
resources sharing one project directory the two orders write different
bytes at the shared containerApp.tmpl.yaml path, so two runs can differ. -/
theorem c5_counterexample :
    c5OrderA.Perm c5OrderB ∧
    c5Probe c5OrderA = some ⟨"api2", permissionFileOwnerOnly⟩ ∧
    c5Probe c5OrderB = some ⟨"api1", permissionFileOwnerOnly⟩ ∧
    c5Probe c5OrderA ≠ c5Probe c5OrderB :=
  ⟨List.Perm.swap ("api2", "proj") ("api1", "proj") [], by decide, by decide,
    by decide⟩

/-- Collaborators for the c5_synth_deterministic witness: distinct project
directories. -/
def c5wDeps : SynthDeps where
  bicepTemplate := fun _ => Except.ok [(["main.bicep"], ⟨"infra", 420⟩)]
  containerAppTemplate := fun _ name => Except.ok name
  relDir := fun p => [p]

/-- Witness for c5_synth_deterministic: two orders of two projects with
distinct directories synthesize the same tree. -/
theorem c5_synth_deterministic_witness :
    ([("a", "pa"), ("b", "pb")] : List (String × String)).Perm
      [("b", "pb"), ("a", "pa")] ∧
    SynthAllInfrastructure c5wDeps ⟨[]⟩ [("a", "pa"), ("b", "pb")] =
      SynthAllInfrastructure c5wDeps ⟨[]⟩ [("b", "pb"), ("a", "pa")] :=
  ⟨List.Perm.swap ("b", "pb") ("a", "pa") [],
    c5_synth_deterministic c5wDeps ⟨[]⟩
      (List.Perm.swap ("b", "pb") ("a", "pa") [])
      (by decide) (fun nv _ => ⟨nv.1, rfl⟩)⟩

/-! ### Lemmas about paths and the disk model -/

lemma leads_append_self (s r : List String) : leads s (s ++ r) = true := by
  induction s with
  | nil => rfl
  | cons a as ih => simp [leads, ih]

lemma leads_append_split (s : List String) :
    ∀ d r : List String, leads s (d ++ r) = true →
      leads s d = true ∨ leads d s = true := by
  induction s with
  | nil =>
    intro d r _
    exact Or.inl rfl
  | cons a as ih =>
    intro d r h
    cases d with
    | nil => exact Or.inr rfl
    | cons b bs =>
      simp only [List.cons_append, leads, Bool.and_eq_true, beq_iff_eq] at h
      rcases ih bs r h.2 with h1 | h1
      · exact Or.inl (by simp [leads, h.1, h1])
      · exact Or.inr (by simp [leads, h.1.symm, h1])

lemma lookupKV_setEntry {α : Type} (l : List (List String × α))
    (p : List String) (c : α) (q : List String) :
    lookupKV (setEntry l p c) q = if q = p then some c else lookupKV l q := by
  induction l with
  | nil =>
    by_cases h : q = p
    · subst h
      simp [setEntry, lookupKV]
    · simp [setEntry, lookupKV, h, Ne.symm h]
  | cons hd tl ih =>
    obtain ⟨k, v⟩ := hd
    by_cases hk : k = p
    · subst hk
      rw [setEntry, if_pos rfl]
      by_cases hq : q = k
      · subst hq
        simp [lookupKV]
      · simp [lookupKV, hq, Ne.symm hq]
    · rw [setEntry, if_neg hk]
      by_cases hq : k = q
      · subst hq
        simp [lookupKV, hk]
      · simp [lookupKV, hq, ih]

lemma lookupKV_eq_none {α : Type} (l : List (List String × α))
    (k : List String) (h : ∀ e ∈ l, e.1 ≠ k) : lookupKV l k = none := by
  induction l with
  | nil => rfl
  | cons hd tl ih =>
    obtain ⟨k', v⟩ := hd
    rw [lookupKV, if_neg (h (k', v) (by simp))]
    exact ih (fun e he => h e (by simp [he]))

lemma setEntry_append {α : Type} (l : List (List String × α))
    (p : List String) (c : α) (h : lookupKV l p = none) :
    setEntry l p c = l ++ [(p, c)] := by
  induction l with
  | nil => rfl
  | cons hd tl ih =>
    obtain ⟨k, v⟩ := hd
    by_cases hk : k = p
    · subst hk
      simp [lookupKV] at h
    · simp only [lookupKV, if_neg hk] at h
      rw [setEntry, if_neg hk, ih h]
      rfl

lemma lookupKV_filter_not_leads (l : List (List String × String))
    (root q : List String) :
    lookupKV (l.filter (fun e => !leads root e.1)) q =
      if leads root q = true then none else lookupKV l q := by
  induction l with
  | nil => cases h : leads root q <;> simp [lookupKV, h]
  | cons hd tl ih =>
    obtain ⟨k, v⟩ := hd
    by_cases hl : leads root k = true
    · rw [List.filter_cons, if_neg (by simp [hl]), ih]
      by_cases hq : leads root q = true
      · simp [hq]
      · have hkq : ¬k = q := fun he => hq (he ▸ hl)
        simp [hq, lookupKV, hkq]
    · rw [List.filter_cons, if_pos (by simp [hl])]
      by_cases hq : k = q
      · subst hq
        have : leads root k = false := by
          cases hc : leads root k
          · rfl
          · exact absurd hc hl
        simp [lookupKV, this]
      · simp only [lookupKV, if_neg hq]
        rw [ih]

lemma stripRoot_append (r s : List String) : stripRoot r (r ++ s) = some s := by
  induction r with
  | nil => rfl
  | cons a as ih => simp [stripRoot, ih]

lemma stripRoot_none (r : List String) :
    ∀ p : List String, leads r p = false → stripRoot r p = none := by
  induction r with
  | nil =>
    intro p h
    simp [leads] at h
  | cons a as ih =>
    intro p h
    cases p with
    | nil => rfl
    | cons b bs =>
      by_cases hab : a = b
      · subst hab
        simp only [leads, beq_self_eq_true, Bool.true_and] at h
        simp [stripRoot, ih bs h]
      · simp [stripRoot, hab]

lemma getFile_setFile (d : Disk) (p : List String) (c : String)
    (q : List String) :
    (d.setFile p c).getFile q = if q = p then some c else d.getFile q :=
  lookupKV_setEntry d.files p c q

lemma getFile_removeAll (d : Disk) (root q : List String) :
    (d.removeAll root).getFile q =
      if leads root q = true then none else d.getFile q :=
  lookupKV_filter_not_leads d.files root q

lemma cleanOf_removeAll (d : Disk) (root : List String) :
    (d.removeAll root).cleanOf root = true := by
  rw [Disk.cleanOf, Bool.and_eq_true, List.all_eq_true, List.all_eq_true]
  constructor
  · intro e he
    exact (List.mem_filter.mp he).2
  · intro q hq
    exact (List.mem_filter.mp hq).2

lemma renderStaging_frame (staging : List String)
    (files : List (List String × String)) (q : List String)
    (h : leads staging q = false) :
    ∀ d : Disk,
      (renderStaging staging files d).getFile q = d.getFile q := by
  induction files with
  | nil =>
    intro d
    rfl
  | cons rc rest ih =>
    intro d
    have hne : q ≠ staging ++ rc.1 := by
      intro he
      rw [he, leads_append_self] at h
      simp at h
    rw [renderStaging, ih, getFile_setFile, if_neg hne]
    rfl

lemma renderStaging_files (staging : List String)
    (files : List (List String × String)) :
    ∀ d : Disk,
      (∀ rc ∈ files, lookupKV d.files (staging ++ rc.1) = none) →
      (files.map Prod.fst).Nodup →
      (renderStaging staging files d).files =
        d.files ++ files.map (fun rc => (staging ++ rc.1, rc.2)) := by
  induction files with
  | nil =>
    intro d _ _
    simp [renderStaging]
  | cons rc rest ih =>
    intro d habs hnd
    simp only [List.map_cons, List.nodup_cons] at hnd
    have hd1 : ((d.mkdirAll (staging ++ rc.1.dropLast)).setFile
        (staging ++ rc.1) rc.2).files =
        d.files ++ [(staging ++ rc.1, rc.2)] :=
      setEntry_append _ _ _ (habs rc (by simp))
    have habs' : ∀ rc' ∈ rest,
        lookupKV ((d.mkdirAll (staging ++ rc.1.dropLast)).setFile
          (staging ++ rc.1) rc.2).files (staging ++ rc'.1) = none := by
      intro rc' hrc'
      have hne : ¬staging ++ rc'.1 = staging ++ rc.1 := by
        intro he
        have heq : rc'.1 = rc.1 := List.append_cancel_left he
        exact hnd.1 (heq ▸ List.mem_map_of_mem Prod.fst hrc')
      show lookupKV (setEntry d.files (staging ++ rc.1) rc.2)
        (staging ++ rc'.1) = none
      rw [lookupKV_setEntry, if_neg hne]
      exact habs rc' (by simp [hrc'])
    rw [renderStaging, ih _ habs' hnd.2, hd1]
    simp

lemma stagingEntries_render (staging : List String)
    (files : List (List String × String)) (d0 : Disk)
    (hclean : ∀ e ∈ d0.files, leads staging e.1 = false)
    (hnd : (files.map Prod.fst).Nodup) :
    stagingEntries (renderStaging staging files (d0.mkdirAll staging))
      staging = files := by
  have habs : ∀ rc ∈ files,
      lookupKV (d0.mkdirAll staging).files (staging ++ rc.1) = none := by
    intro rc _
    apply lookupKV_eq_none
    intro e he heq
    have hl := hclean e he
    rw [heq, leads_append_self] at hl
    simp at hl
  rw [stagingEntries, renderStaging_files staging files _ habs hnd,
    List.filterMap_append]
  have h1 : (d0.mkdirAll staging).files.filterMap
      (fun e => match stripRoot staging e.1 with
        | some rel => some (rel, e.2)
        | none => none) = [] := by
    rw [List.filterMap_eq_nil_iff]
    intro e he
    rw [stripRoot_none staging e.1 (hclean e he)]
  have h2 : ∀ fl : List (List String × String),
      (fl.map (fun rc => (staging ++ rc.1, rc.2))).filterMap
        (fun e => match stripRoot staging e.1 with
          | some rel => some (rel, e.2)
          | none => none) = fl := by
    intro fl
    induction fl with
    | nil => rfl
    | cons rc rest ihl =>
      simp only [List.map_cons, List.filterMap_cons]
      rw [stripRoot_append]
      simp [ihl]
  rw [h1, h2]
  rfl

lemma copyFold_frame (staging dest : List String)
    (skipSet : Option (List (List String)))
    (entries : List (List String × String)) (q : List String)
    (h : ∀ rc ∈ entries, q ≠ dest ++ rc.1) :
    ∀ d : Disk,
      (entries.foldl (copyStep staging dest skipSet) d).getFile q =
        d.getFile q := by
  induction entries with
  | nil =>
    intro d
    rfl
  | cons rc rest ih =>
    intro d
    rw [List.foldl_cons, ih (fun rc' h' => h rc' (by simp [h']))]
    simp only [copyStep]
    by_cases hs : inSkip skipSet (staging ++ rc.1) = true
    · rw [if_pos hs]
    · rw [if_neg hs, getFile_setFile, if_neg (h rc (by simp))]

lemma copyFold_getFile (staging dest : List String)
    (skipSet : Option (List (List String)))
    (entries : List (List String × String))
    (rel : List String) (c : String)
    (hmem : (rel, c) ∈ entries)
    (hnd : (entries.map Prod.fst).Nodup) :
    ∀ d : Disk,
      (entries.foldl (copyStep staging dest skipSet) d).getFile
        (dest ++ rel) =
        if inSkip skipSet (staging ++ rel) = true
        then d.getFile (dest ++ rel) else some c := by
  induction entries with
  | nil => cases hmem
  | cons rc rest ih =>
    intro d
    simp only [List.map_cons, List.nodup_cons] at hnd
    rcases List.mem_cons.mp hmem with he | hm
    · have hkey : rc.1 = rel := by rw [← he]
      have hval : rc.2 = c := by rw [← he]
      rw [List.foldl_cons]
      have hrest : ∀ rc' ∈ rest, (dest ++ rel) ≠ dest ++ rc'.1 := by
        intro rc' h' he2
        have heq : rel = rc'.1 := List.append_cancel_left he2
        refine hnd.1 ?_
        rw [hkey, heq]
        exact List.mem_map_of_mem Prod.fst h'
      rw [copyFold_frame staging dest skipSet rest _ hrest]
      simp only [copyStep, hkey, hval]
      by_cases hs : inSkip skipSet (staging ++ rel) = true
      · rw [if_pos hs, if_pos hs]
      · rw [if_neg hs, if_neg hs, getFile_setFile, if_pos rfl]
    · rw [List.foldl_cons, ih hm hnd.2]
      by_cases hs : inSkip skipSet (staging ++ rel) = true
      · rw [if_pos hs, if_pos hs]
        have hne : (dest ++ rel) ≠ dest ++ rc.1 := by
          intro he2
          have heq : rel = rc.1 := List.append_cancel_left he2
          refine hnd.1 ?_
          rw [← heq]
          exact List.mem_map_of_mem Prod.fst hm
        simp only [copyStep]
        by_cases hs2 : inSkip skipSet (staging ++ rc.1) = true
        · rw [if_pos hs2]
        · rw [if_neg hs2, getFile_setFile, if_neg hne]
      · rw [if_neg hs, if_neg hs]

/-! ### C8: the staging directory is removed on every exit path -/

/-- C8: whenever the temporary staging directory is created (os.MkdirTemp
succeeds), both staged merges of InitFromApp leave no file and no
directory at or under it, on every exit path — the normal return, every
error return, and a panic of any collaborator — because its removal is
registered with defer immediately after creation. -/
theorem c8_staging_removed (staging : List String) (d0 : Disk) :
    (∀ inp : AppHostMergeInput, inp.mkdirTempResult = Except.ok staging →
      (appHostStagedMerge inp d0).disk.cleanOf staging = true) ∧
    (∀ inp : InfraMergeInput, inp.mkdirTempResult = Except.ok staging →
      (infraStagedMerge inp d0).disk.cleanOf staging = true) := by
  constructor
  · intro inp h
    obtain ⟨files, destRoot, mk, pr, co⟩ := inp
    simp only at h
    subst h
    cases pr <;> cases co <;>
      simp [appHostStagedMerge, cleanOf_removeAll]
  · intro inp h
    obtain ⟨mk, lo, ex, destRoot, pr, co, ns⟩ := inp
    simp only at h
    subst h
    cases lo <;> cases ex <;> cases pr <;> cases co <;> cases ns <;>
      simp [infraStagedMerge, cleanOf_removeAll]

/-- Witness for c8_staging_removed: a concrete run through both merges
(one successful, one failing at the prompt) leaves the staging directory
gone. -/
theorem c8_staging_removed_witness :
    (AppHostMergeInput.mk [(["azure.yaml"], "x")] ["proj"]
        (Except.ok ["tmp", "azd-infra"]) (Outcome.ok none)
        (Outcome.ok ())).mkdirTempResult = Except.ok ["tmp", "azd-infra"] ∧
    (appHostStagedMerge
        ⟨[(["azure.yaml"], "x")], ["proj"], Except.ok ["tmp", "azd-infra"],
          Outcome.ok none, Outcome.ok ()⟩
        ⟨[], []⟩).disk.cleanOf ["tmp", "azd-infra"] = true ∧
    (infraStagedMerge
        ⟨Except.ok ["tmp", "azd-infra"], Outcome.ok (),
          Outcome.ok [(["main.bicep"], "b")], ["proj"],
          Outcome.err "cancelled", Outcome.ok (), Outcome.ok "next"⟩
        ⟨[], []⟩).disk.cleanOf ["tmp", "azd-infra"] = true :=
  ⟨rfl,
    (c8_staging_removed ["tmp", "azd-infra"] ⟨[], []⟩).1 _ rfl,
    (c8_staging_removed ["tmp", "azd-infra"] ⟨[], []⟩).2 _ rfl⟩

/-! ### C9: staged merge only writes through the staging directory -/

/-- C9: both staged merges of InitFromApp render every generated file into
the staging directory without touching any path outside it; after the
conflict decisions are collected, the only destination mutation the merge
performs is the copy from staging — a staged file not in the skip set ends
up at the destination with the staged contents, a file in the skip set
leaves its destination path untouched, and every path that is neither
under staging nor a copy target is unchanged.  For the app-host merge
(app_init.go 184-209) the destination is the project root; for the
scaffold merge (app_init.go 283-297) the destination is the project's
infra directory, and the later next-steps.md write at the project root
(line 300) lies outside the cited merge and is excluded explicitly. -/
theorem c9_staged_merge (files rendered : List (List String × String))
    (destRoot staging : List String)
    (skipSet : Option (List (List String))) (d0 : Disk) (ns : String)
    (hnd : (files.map Prod.fst).Nodup)
    (hndr : (rendered.map Prod.fst).Nodup)
    (hclean : ∀ e ∈ d0.files, leads staging e.1 = false)
    (hdj1 : leads staging destRoot = false)
    (hdj2 : leads destRoot staging = false) :
    (∀ q, leads staging q = false →
      (renderStaging staging files (d0.mkdirAll staging)).getFile q =
        d0.getFile q) ∧
    (∀ rel c, (rel, c) ∈ files →
      inSkip skipSet (staging ++ rel) = false →
      (appHostStagedMerge
          ⟨files, destRoot, Except.ok staging, Outcome.ok skipSet,
            Outcome.ok ()⟩ d0).disk.getFile (destRoot ++ rel) = some c) ∧
    (∀ rel c, (rel, c) ∈ files →
      inSkip skipSet (staging ++ rel) = true →
      (appHostStagedMerge
          ⟨files, destRoot, Except.ok staging, Outcome.ok skipSet,
            Outcome.ok ()⟩ d0).disk.getFile (destRoot ++ rel) =
        d0.getFile (destRoot ++ rel)) ∧
    (∀ q, leads staging q = false →
      (∀ rel ∈ files.map Prod.fst, q ≠ destRoot ++ rel) →
      (appHostStagedMerge
          ⟨files, destRoot, Except.ok staging, Outcome.ok skipSet,
            Outcome.ok ()⟩ d0).disk.getFile q = d0.getFile q) ∧
    (∀ q, leads staging q = false →
      (renderStaging staging rendered (d0.mkdirAll staging)).getFile q =
        d0.getFile q) ∧
    (∀ rel c, (rel, c) ∈ rendered →
      inSkip skipSet (staging ++ rel) = false →
      (infraStagedMerge
          ⟨Except.ok staging, Outcome.ok (), Outcome.ok rendered, destRoot,
            Outcome.ok skipSet, Outcome.ok (), Outcome.ok ns⟩
          d0).disk.getFile ((destRoot ++ ["infra"]) ++ rel) = some c) ∧
    (∀ rel c, (rel, c) ∈ rendered →
      inSkip skipSet (staging ++ rel) = true →
      (infraStagedMerge
          ⟨Except.ok staging, Outcome.ok (), Outcome.ok rendered, destRoot,
            Outcome.ok skipSet, Outcome.ok (), Outcome.ok ns⟩
          d0).disk.getFile ((destRoot ++ ["infra"]) ++ rel) =
        d0.getFile ((destRoot ++ ["infra"]) ++ rel)) ∧
    (∀ q, leads staging q = false →
      q ≠ destRoot ++ ["next-steps.md"] →
      (∀ rel ∈ rendered.map Prod.fst, q ≠ (destRoot ++ ["infra"]) ++ rel) →
      (infraStagedMerge
          ⟨Except.ok staging, Outcome.ok (), Outcome.ok rendered, destRoot,
            Outcome.ok skipSet, Outcome.ok (), Outcome.ok ns⟩
          d0).disk.getFile q = d0.getFile q) := by
  have hfin : (appHostStagedMerge
      ⟨files, destRoot, Except.ok staging, Outcome.ok skipSet,
        Outcome.ok ()⟩ d0).disk =
      (copyTree staging destRoot skipSet
        (renderStaging staging files (d0.mkdirAll staging))).removeAll
        staging := rfl
  have hentries : stagingEntries
      (renderStaging staging files (d0.mkdirAll staging)) staging = files :=
    stagingEntries_render staging files d0 hclean hnd
  have hno : ∀ rel : List String,
      leads staging (destRoot ++ rel) = false := by
    intro rel
    cases hcase : leads staging (destRoot ++ rel) with
    | false => rfl
    | true =>
      rcases leads_append_split staging destRoot rel hcase with h1 | h1
      · rw [h1] at hdj1
        simp at hdj1
      · rw [h1] at hdj2
        simp at hdj2
  have hfin2 : (infraStagedMerge
      ⟨Except.ok staging, Outcome.ok (), Outcome.ok rendered, destRoot,
        Outcome.ok skipSet, Outcome.ok (), Outcome.ok ns⟩ d0).disk =
      ((copyTree staging (destRoot ++ ["infra"]) skipSet
        ((renderStaging staging rendered (d0.mkdirAll staging)).mkdirAll
          (destRoot ++ ["infra"]))).setFile (destRoot ++ ["next-steps.md"])
        ns).removeAll staging := rfl
  have hentries2 : stagingEntries
      ((renderStaging staging rendered (d0.mkdirAll staging)).mkdirAll
        (destRoot ++ ["infra"])) staging = rendered :=
    stagingEntries_render staging rendered d0 hclean hndr
  have hmk : ∀ q, ((renderStaging staging rendered
      (d0.mkdirAll staging)).mkdirAll (destRoot ++ ["infra"])).getFile q =
      (renderStaging staging rendered (d0.mkdirAll staging)).getFile q :=
    fun _ => rfl
  have hno2 : ∀ rel : List String,
      leads staging (destRoot ++ "infra" :: rel) = false := by
    intro rel
    exact hno ("infra" :: rel)
  have hnens : ∀ rel : List String,
      (destRoot ++ ["infra"]) ++ rel ≠ destRoot ++ ["next-steps.md"] := by
    intro rel he
    rw [List.append_assoc] at he
    have h2 : "infra" :: rel = ["next-steps.md"] := List.append_cancel_left he
    injection h2 with h3 h4
    exact absurd h3 (by decide)
  refine ⟨?_, ?_, ?_, ?_, ?_, ?_, ?_, ?_⟩
  · intro q hq
    rw [renderStaging_frame staging files q hq]
    rfl
  · intro rel c hmem hskip
    rw [hfin, getFile_removeAll, if_neg (by simp [hno rel])]
    rw [copyTree, hentries]
    rw [copyFold_getFile staging destRoot skipSet files rel c hmem hnd]
    rw [if_neg (by simp [hskip])]
  · intro rel c hmem hskip
    rw [hfin, getFile_removeAll, if_neg (by simp [hno rel])]
    rw [copyTree, hentries]
    rw [copyFold_getFile staging destRoot skipSet files rel c hmem hnd]
    rw [if_pos hskip]
    rw [renderStaging_frame staging files _ (hno rel)]
    rfl
  · intro q hq hqn
    rw [hfin, getFile_removeAll, if_neg (by simp [hq])]
    rw [copyTree, hentries]
    have hfr : ∀ rc ∈ files, q ≠ destRoot ++ rc.1 := by
      intro rc hrc
      exact hqn rc.1 (List.mem_map_of_mem Prod.fst hrc)
    rw [copyFold_frame staging destRoot skipSet files q hfr]
    rw [renderStaging_frame staging files q hq]
    rfl
  · intro q hq
    rw [renderStaging_frame staging rendered q hq]
    rfl
  · intro rel c hmem hskip
    rw [hfin2, getFile_removeAll, if_neg (by simp [hno2 rel])]
    rw [getFile_setFile, if_neg (hnens rel)]
    rw [copyTree, hentries2]
    rw [copyFold_getFile staging (destRoot ++ ["infra"]) skipSet rendered
      rel c hmem hndr]
    rw [if_neg (by simp [hskip])]
  · intro rel c hmem hskip
    rw [hfin2, getFile_removeAll, if_neg (by simp [hno2 rel])]
    rw [getFile_setFile, if_neg (hnens rel)]
    rw [copyTree, hentries2]
    rw [copyFold_getFile staging (destRoot ++ ["infra"]) skipSet rendered
      rel c hmem hndr]
    rw [if_pos hskip, hmk]
    rw [renderStaging_frame staging rendered ((destRoot ++ ["infra"]) ++ rel)
      (by simpa using hno2 rel)]
    rfl
  · intro q hq hqns hqn
    rw [hfin2, getFile_removeAll, if_neg (by simp [hq])]
    rw [getFile_setFile, if_neg hqns]
    rw [copyTree, hentries2]
    have hfr : ∀ rc ∈ rendered, q ≠ (destRoot ++ ["infra"]) ++ rc.1 := by
      intro rc hrc
      exact hqn rc.1 (List.mem_map_of_mem Prod.fst hrc)
    rw [copyFold_frame staging (destRoot ++ ["infra"]) skipSet rendered
      q hfr]
    rw [hmk, renderStaging_frame staging rendered q hq]
    rfl

/-- Witness for c9_staged_merge: a two-file app-host render with one
conflict kept by the user — azure.yaml is skipped and untouched,
infra/main.bicep is copied — and a scaffold render whose main.bicep lands
in the infra directory. -/
theorem c9_staged_merge_witness :
    ((([(["azure.yaml"], "new"), (["infra", "main.bicep"], "b")] :
        List (List String × String)).map Prod.fst).Nodup ∧
      inSkip (some [["tmp", "azd-infra", "azure.yaml"]])
        (["tmp", "azd-infra"] ++ ["azure.yaml"]) = true) ∧
    (appHostStagedMerge
        ⟨[(["azure.yaml"], "new"), (["infra", "main.bicep"], "b")], ["proj"],
          Except.ok ["tmp", "azd-infra"],
          Outcome.ok (some [["tmp", "azd-infra", "azure.yaml"]]),
          Outcome.ok ()⟩
        ⟨[(["proj", "azure.yaml"], "old")], [["proj"]]⟩).disk.getFile
      (["proj"] ++ ["azure.yaml"]) =
      (Disk.mk [(["proj", "azure.yaml"], "old")] [["proj"]]).getFile
        (["proj"] ++ ["azure.yaml"]) ∧
    (appHostStagedMerge
        ⟨[(["azure.yaml"], "new"), (["infra", "main.bicep"], "b")], ["proj"],
          Except.ok ["tmp", "azd-infra"],
          Outcome.ok (some [["tmp", "azd-infra", "azure.yaml"]]),
          Outcome.ok ()⟩
        ⟨[(["proj", "azure.yaml"], "old")], [["proj"]]⟩).disk.getFile
      (["proj"] ++ ["infra", "main.bicep"]) = some "b" ∧
    (infraStagedMerge
        ⟨Except.ok ["tmp", "azd-infra"], Outcome.ok (),
          Outcome.ok [(["main.bicep"], "b2")], ["proj"],
          Outcome.ok (some [["tmp", "azd-infra", "azure.yaml"]]),
          Outcome.ok (), Outcome.ok "next"⟩
        ⟨[(["proj", "azure.yaml"], "old")], [["proj"]]⟩).disk.getFile
      ((["proj"] ++ ["infra"]) ++ ["main.bicep"]) = some "b2" :=
  ⟨⟨by decide, by decide⟩,
    (c9_staged_merge [(["azure.yaml"], "new"), (["infra", "main.bicep"], "b")]
        [(["main.bicep"], "b2")] ["proj"] ["tmp", "azd-infra"]
        (some [["tmp", "azd-infra", "azure.yaml"]])
        ⟨[(["proj", "azure.yaml"], "old")], [["proj"]]⟩ "next"
        (by decide) (by decide) (by decide) (by decide) (by decide)).2.2.1
      ["azure.yaml"] "new" (by decide) (by decide),
    (c9_staged_merge [(["azure.yaml"], "new"), (["infra", "main.bicep"], "b")]
        [(["main.bicep"], "b2")] ["proj"] ["tmp", "azd-infra"]
        (some [["tmp", "azd-infra", "azure.yaml"]])
        ⟨[(["proj", "azure.yaml"], "old")], [["proj"]]⟩ "next"
        (by decide) (by decide) (by decide) (by decide) (by decide)).2.1
      ["infra", "main.bicep"] "b" (by decide) (by decide),
    (c9_staged_merge [(["azure.yaml"], "new"), (["infra", "main.bicep"], "b")]
        [(["main.bicep"], "b2")] ["proj"] ["tmp", "azd-infra"]
        (some [["tmp", "azd-infra", "azure.yaml"]])
        ⟨[(["proj", "azure.yaml"], "old")], [["proj"]]⟩ "next"
        (by decide) (by decide) (by decide) (by decide)
        (by decide)).2.2.2.2.2.1
      ["main.bicep"] "b2" (by decide) (by decide)⟩

end Azd
